import Mathlib

/-!
# Shallow embedding of the Yfinance-FastApi aggregation core

This file embeds, in Lean 4, the parts of the repository that the
verified claims are about:

* `src/utils/helpers.py` — `validate_symbol`, `calculate_change`;
* `src/utils/exceptions.py` — the typed error taxonomy;
* `src/services/stock_service.py` — the expiring cache
  (`_get_cache_key`, `_get_from_cache`, `_set_cache`), the single-symbol
  operations `get_stock_price` / `get_company_info`, the batch operations
  `get_multiple_stocks` / `get_multiple_company_info`, and the free-text
  search (`search_stocks`, `_calculate_match_score`);
* `src/services/market_service.py` — the trending-list sort;
* `src/services/broker_service.py` — the holdings enrichment merge;
* `src/controllers/stock_controller.py` — the per-request service factory.

Modelling conventions:

* Python `str` used character-wise (strip/upper/lower/split/substring)
  is modelled as `List Char` (`PyStr`); strings used only as opaque keys
  stay `String`.
* Wall-clock timestamps are `Int` seconds; `datetime.now()` becomes an
  explicit `now` argument threaded through the cache operations.
* The blocking yfinance adapter call is an oracle argument
  (`fetch : String → …`); the duration of each unit of work is an oracle
  `elapsed : String → Nat`, and `asyncio.wait_for(fut, timeout)` raises
  its `TimeoutError` exactly when `timeout < elapsed symbol`.
* Python floats are modelled as `ℚ`; `round(x, 2)` keeps the claim's
  "rounded to 2 decimal places" reading via `pyRound2`.
* The process-wide mutable cache dict is explicit state: every stateful
  operation takes a `Cache` and returns the updated one.
-/

deriving instance DecidableEq for Except

namespace YF

/-- Python `str` for character-level operations. -/
abbrev PyStr := List Char

/-- Embeds `str.lower()` (ASCII, which covers every string in the repository). -/
def pyLower (s : PyStr) : PyStr := s.map Char.toLower

/-- Embeds `str.upper()`. -/
def pyUpper (s : PyStr) : PyStr := s.map Char.toUpper

/-- Embeds `str.strip()`: drop leading and trailing whitespace. -/
def pyStrip (s : PyStr) : PyStr :=
  ((s.dropWhile Char.isWhitespace).reverse.dropWhile Char.isWhitespace).reverse

/-- Helper for `pySplit`: accumulates the (reversed) current token. -/
def pySplitAux : PyStr → PyStr → List PyStr
  | [], acc => if acc.isEmpty then [] else [acc.reverse]
  | c :: t, acc =>
      if c.isWhitespace then
        if acc.isEmpty then pySplitAux t [] else acc.reverse :: pySplitAux t []
      else pySplitAux t (c :: acc)

/-- Embeds `str.split()` with no argument: split on whitespace runs, no empty tokens. -/
def pySplit (s : PyStr) : List PyStr := pySplitAux s []

/-- Python `q in s` on strings: contiguous-substring containment. -/
def isSubstr (q : PyStr) : PyStr → Bool
  | [] => q.isEmpty
  | c :: t => q.isPrefixOf (c :: t) || isSubstr q t

/-- The typed error taxonomy of `utils/exceptions.py`, plus the bare
`asyncio.TimeoutError` (which is *not* a `StockAPIException` and therefore
falls through to the controller's generic 500 handler). -/
inductive StockAPIError
  | invalidSymbol (symbol : String)
  | dataNotFound (symbol dataType : String)
  | timeoutException
  | rateLimit
  | asyncTimeout
  | providerError (msg : String)
deriving DecidableEq, Repr

/-- HTTP status each error produces at the boundary: `StockAPIException`
subclasses carry their own `status_code`; anything else is caught by the
controller's `except Exception` and mapped to a generic 500. -/
def StockAPIError.statusCode : StockAPIError → Nat
  | .invalidSymbol _ => 400
  | .dataNotFound _ _ => 404
  | .timeoutException => 408
  | .rateLimit => 429
  | .asyncTimeout => 500
  | .providerError _ => 500

/-- Embeds `helpers.validate_symbol`: `if not symbol or not isinstance(symbol, str):
raise InvalidSymbolException(symbol)` then `return symbol.strip().upper()`.
(The `isinstance` test is vacuous in the typed embedding; `not symbol`
on a `str` is exactly the emptiness test.) -/
def validate_symbol (symbol : PyStr) : Except StockAPIError PyStr :=
  if symbol.isEmpty then .error (.invalidSymbol (String.mk symbol))
  else .ok (pyUpper (pyStrip symbol))

/-- Wraps `validate_symbol` at `String` type, for call sites that treat the
symbol as an opaque key afterwards. -/
def validateSymbolS (symbol : String) : Except StockAPIError String :=
  (validate_symbol symbol.toList).map String.mk

/-- Python `round(x, 2)` on the rational model of floats: the result is
an integer number of hundredths. -/
def pyRound2 (x : ℚ) : ℚ := (round (x * 100) : ℤ) / 100

/-- Embeds `helpers.calculate_change`. -/
def calculate_change (current previous : ℚ) : ℚ × ℚ :=
  if previous = 0 then (0, 0)
  else (pyRound2 (current - previous), pyRound2 ((current - previous) / previous * 100))

/-! ## The expiring cache of `StockService` -/

/-- The `self.cache` dict: key ↦ `(data, timestamp)`.  Keys are unique
(`cacheSet` overwrites). -/
abbrev Cache (α : Type) := List (String × α × Int)

/-- Dict lookup. -/
def cacheLookup {α : Type} (c : Cache α) (k : String) : Option (α × Int) :=
  (c.find? (fun e => e.1 == k)).map (fun e => e.2)

/-- Embeds `del self.cache[key]`. -/
def cacheErase {α : Type} (c : Cache α) (k : String) : Cache α :=
  c.filter (fun e => !(e.1 == k))

/-- Embeds `StockService._set_cache`: `self.cache[key] = (data, datetime.now())`
(dict assignment overwrites any previous entry). -/
def set_cache {α : Type} (c : Cache α) (k : String) (data : α) (now : Int) : Cache α :=
  (k, data, now) :: cacheErase c k

/-- Embeds `StockService._get_from_cache`: on a present key, return the data if
`now - timestamp < cache_timeout`, else delete the key and miss.  Returns
the (possibly purged) cache alongside the result. -/
def get_from_cache {α : Type} (c : Cache α) (k : String) (now ttl : Int) :
    Option α × Cache α :=
  match cacheLookup c k with
  | none => (none, c)
  | some (data, ts) =>
      if now - ts < ttl then (some data, c) else (none, cacheErase c k)

/-- Comparison `sorted(kwargs.items())` uses on `(key, value)` tuples:
lexicographic, key first. -/
def pairLe (p q : String × String) : Prop :=
  p.1 < q.1 ∨ (p.1 = q.1 ∧ p.2 ≤ q.2)

instance : DecidableRel pairLe := fun p q => by
  unfold pairLe; infer_instance

instance : IsTotal (String × String) pairLe where
  total p q := by
    rcases lt_trichotomy p.1 q.1 with h | h | h
    · exact Or.inl (Or.inl h)
    · rcases le_total p.2 q.2 with h2 | h2
      · exact Or.inl (Or.inr ⟨h, h2⟩)
      · exact Or.inr (Or.inr ⟨h.symm, h2⟩)
    · exact Or.inr (Or.inl h)

instance : IsTrans (String × String) pairLe where
  trans p q u hpq hqu := by
    rcases hpq with h1 | ⟨e1, l1⟩
    · rcases hqu with h2 | ⟨e2, _⟩
      · exact Or.inl (h1.trans h2)
      · exact Or.inl (e2 ▸ h1)
    · rcases hqu with h2 | ⟨e2, l2⟩
      · exact Or.inl (e1 ▸ h2)
      · exact Or.inr ⟨e1.trans e2, l1.trans l2⟩

instance : IsAntisymm (String × String) pairLe where
  antisymm p q hpq hqp := by
    rcases hpq with h1 | ⟨e1, l1⟩
    · rcases hqp with h2 | ⟨e2, _⟩
      · exact absurd h2 (lt_asymm h1)
      · exact absurd h1 (e2 ▸ lt_irrefl _)
    · rcases hqp with h2 | ⟨e2, l2⟩
      · exact absurd h2 (e1 ▸ lt_irrefl _)
      · exact Prod.ext e1 (le_antisymm l1 l2)

/-- Embeds `StockService._get_cache_key`: `[symbol, data_type]` then each
`f"{k}:{v}"` for `sorted(kwargs.items())`, joined with `":"`. -/
def get_cache_key (symbol data_type : String) (kwargs : List (String × String)) : String :=
  let sortedKw := kwargs.insertionSort pairLe
  String.intercalate ":" ([symbol, data_type] ++ sortedKw.map (fun p => p.1 ++ ":" ++ p.2))

/-! ## Payload schemas (`models/schemas.py`)

Numeric provider fields irrelevant to every claim (52-week ranges,
ratios, …) are elided; all fields the embedded code paths read or write
are present. -/

/-- Embeds `StockPriceSchema` (the fields the embedded paths use). -/
structure StockPriceSchema where
  symbol : String
  current_price : ℚ := 0
  previous_close : ℚ := 0
  change : ℚ := 0
  change_percent : ℚ := 0
  volume : Int := 0
  market_cap : Option Int := none
deriving DecidableEq, Repr

/-- The dict built by `_fetch_stock_data(symbol, schema_required=False)`. -/
structure StockQuote where
  symbol : String
  name : String := ""
  current_price : ℚ := 0
  change : ℚ := 0
  change_percent : ℚ := 0
  volume : Int := 0
  market_cap : Option Int := none
  sector : Option String := none
deriving DecidableEq, Repr

/-- Embeds `CompanyInfoSchema` (the fields the embedded paths use;
`business_summary` is where `_fetch_company_info` embeds its error marker). -/
structure CompanyInfoSchema where
  symbol : String
  name : String := ""
  sector : Option String := none
  industry : Option String := none
  business_summary : Option String := none
  market_cap : Option Int := none
deriving DecidableEq, Repr

/-- The provider's `ticker.info` dict (an absent key is `none`). -/
structure InfoDict where
  longName : Option String := none
  shortName : Option String := none
  sector : Option String := none
  industry : Option String := none
  longBusinessSummary : Option String := none
  marketCap : Option Int := none
deriving DecidableEq, Repr

/-- Embeds `MultipleInfoResponse`. -/
structure MultipleInfoResponse where
  stocks : List (String × CompanyInfoSchema)
  total_stocks : Nat
  successful_requests : Nat
  failed_requests : Nat
deriving DecidableEq, Repr

/-- The dict returned by `StockService.get_multiple_stocks`. -/
structure MultipleStocksResult where
  trending_stocks : List StockQuote
  total_stocks : Nat
  market_status : String
deriving DecidableEq, Repr

/-- The dict returned by `MarketService.get_trending_stocks`. -/
structure TrendingStocksResult where
  trending_stocks : List StockQuote
  total_requested : Nat
  successful_requests : Nat
  failed_requests : Nat
deriving DecidableEq, Repr

/-! ## `StockService` operations -/

/-- Outcome of running `_fetch_stock_data(symbol, schema_required=False)`
on the executor: either the quote dict, or the exception it raised. -/
inductive FetchOutcome
  | ok (q : StockQuote)
  | exn (msg : String)
deriving DecidableEq, Repr

/-- The dict `_safe_fetch_stock_data` returns: either the quote dict, or
`{'symbol': symbol, 'error': str(e)}`. -/
inductive SafeDict
  | quote (q : StockQuote)
  | errDict (symbol msg : String)
deriving DecidableEq, Repr

/-- Embeds `StockService._safe_fetch_stock_data`: convert a raised exception
into an error-marked dict. -/
def safe_fetch_stock_data (fetch : String → FetchOutcome) (symbol : String) : SafeDict :=
  match fetch symbol with
  | .ok q => .quote q
  | .exn e => .errDict symbol e

/-- Sort key of `x.get('market_cap', 0) or 0` (a missing or `None`
market cap becomes `0`; `or 0` is the identity on every other int). -/
def sortKey (q : StockQuote) : Int := q.market_cap.getD 0

/-- The comparison realised by `list.sort(key=…, reverse=True)`:
descending by `sortKey`, stable (Python's sort is stable and
`reverse=True` keeps equal elements in their original order). -/
def descRel (a b : StockQuote) : Prop := sortKey b ≤ sortKey a

instance : DecidableRel descRel := fun a b => by unfold descRel; infer_instance

instance : IsTotal StockQuote descRel where
  total a b := le_total (sortKey b) (sortKey a)

instance : IsTrans StockQuote descRel where
  trans _ _ _ hab hbc := le_trans hbc hab

/-- The list comprehension `[validate_symbol(symbol) for symbol in symbols]`:
left to right, the first `InvalidSymbolException` aborts the whole call. -/
def validateAll : List String → Except StockAPIError (List String)
  | [] => .ok []
  | s :: rest =>
      match validateSymbolS s with
      | .error e => .error e
      | .ok v =>
          match validateAll rest with
          | .error e => .error e
          | .ok vs => .ok (v :: vs)

/-- Embeds `StockService.get_multiple_stocks`: validate every symbol, fan out
`_safe_fetch_stock_data`, keep only dicts without an `'error'` key, sort
descending by market cap, and report `total_stocks` over the kept list. -/
def get_multiple_stocks (fetch : String → FetchOutcome) (symbols : List String) :
    Except StockAPIError MultipleStocksResult :=
  match validateAll symbols with
  | .error e => .error e
  | .ok validated =>
      let results := validated.map (safe_fetch_stock_data fetch)
      let trending := results.filterMap (fun r =>
        match r with
        | .quote q => some q
        | .errDict _ _ => none)
      let sorted := trending.insertionSort descRel
      .ok { trending_stocks := sorted, total_stocks := sorted.length
            market_status := "active" }

/-- The list `get_multiple_stocks` keeps before sorting (for stating the
sort/stability properties). -/
def keptQuotes (fetch : String → FetchOutcome) (validated : List String) : List StockQuote :=
  (validated.map (safe_fetch_stock_data fetch)).filterMap (fun r =>
    match r with
    | .quote q => some q
    | .errDict _ _ => none)

/-- Outcome of `_fetch_trending_stock` in `MarketService`: the quote
dict, `None` (fetch error caught inside), or an exception captured by
`asyncio.gather(..., return_exceptions=True)`. -/
inductive TrendOutcome
  | ok (q : StockQuote)
  | nil
  | exn (msg : String)
deriving DecidableEq, Repr

/-- The tallying loop of `MarketService.get_trending_stocks`. -/
def tallyTrending : List TrendOutcome → List StockQuote × Nat × Nat
  | [] => ([], 0, 0)
  | r :: rest =>
      let (qs, su, fa) := tallyTrending rest
      match r with
      | .ok q => (q :: qs, su + 1, fa)
      | .nil => (qs, su, fa + 1)
      | .exn _ => (qs, su, fa + 1)

/-- Embeds `MarketService.get_trending_stocks`: fan out over the configured
trending symbols, count successes/failures, sort descending by market
cap. -/
def get_trending_stocks (fetchT : String → TrendOutcome) (trending_symbols : List String) :
    TrendingStocksResult :=
  let results := trending_symbols.map fetchT
  let (qs, su, fa) := tallyTrending results
  { trending_stocks := qs.insertionSort descRel
    total_requested := trending_symbols.length
    successful_requests := su
    failed_requests := fa }

/-- Embeds `StockService._fetch_company_info`: build the schema from
`ticker.info`, catching any adapter exception and returning an
error-marked schema instead (`business_summary = "Error: …"`). -/
def fetch_company_info (fetchInfo : String → Except String InfoDict) (symbol : String) :
    CompanyInfoSchema :=
  match fetchInfo symbol with
  | .ok info =>
      { symbol := symbol
        name := info.longName.getD (info.shortName.getD "")
        sector := info.sector
        industry := info.industry
        business_summary := info.longBusinessSummary
        market_cap := info.marketCap }
  | .error e =>
      { symbol := symbol, name := "", business_summary := some ("Error: " ++ e) }

/-- Embeds `StockService.get_stock_price`, with the adapter call
(`_fetch_stock_data(symbol, schema_required=True)`) as an oracle.
Returns the response (or typed error) together with the updated cache
and the number of adapter calls issued.  `asyncio.TimeoutError` from
`wait_for` is caught and re-raised as `TimeoutException`. -/
def get_stock_price (fetch : String → Except StockAPIError StockPriceSchema)
    (elapsed : String → Nat) (timeout : Nat)
    (cache : Cache StockPriceSchema) (now ttl : Int) (symbol : PyStr) :
    Except StockAPIError (StockPriceSchema × Cache StockPriceSchema) × Nat :=
  match validate_symbol symbol with
  | .error e => (.error e, 0)
  | .ok symChars =>
      let sym := String.mk symChars
      let key := get_cache_key sym "price" []
      match get_from_cache cache key now ttl with
      | (some d, c') => (.ok (d, c'), 0)
      | (none, c') =>
          if timeout < elapsed sym then (.error .timeoutException, 1)
          else
            match fetch sym with
            | .ok r => (.ok (r, set_cache c' key r now), 1)
            | .error e => (.error e, 1)

/-- Embeds `StockService.get_company_info`.  Unlike every sibling operation it
has no `try/except asyncio.TimeoutError` around the `wait_for`, so a
timeout escapes as the bare `asyncio.TimeoutError` (`asyncTimeout`), not
as the typed `TimeoutException`. -/
def get_company_info (fetchInfo : String → Except String InfoDict)
    (elapsed : String → Nat) (timeout : Nat)
    (cache : Cache CompanyInfoSchema) (now ttl : Int) (symbol : PyStr) :
    Except StockAPIError (CompanyInfoSchema × Cache CompanyInfoSchema) × Nat :=
  match validate_symbol symbol with
  | .error e => (.error e, 0)
  | .ok symChars =>
      let sym := String.mk symChars
      let key := get_cache_key sym "company_info" []
      match get_from_cache cache key now ttl with
      | (some d, c') => (.ok (d, c'), 0)
      | (none, c') =>
          if timeout < elapsed sym then (.error .asyncTimeout, 1)
          else
            let r := fetch_company_info fetchInfo sym
            (.ok (r, set_cache c' key r now), 1)

/-- Embeds the controller wiring: `stock_controller.get_stock_service` builds a fresh
`StockService()` for every request (`Depends(get_stock_service)` runs
the factory per request), so each request starts from an empty cache.
This is the price endpoint handler seen end to end. -/
def handle_price_request (fetch : String → Except StockAPIError StockPriceSchema)
    (elapsed : String → Nat) (timeout : Nat) (now ttl : Int) (symbol : PyStr) :
    Except StockAPIError (StockPriceSchema × Cache StockPriceSchema) × Nat :=
  get_stock_price fetch elapsed timeout [] now ttl symbol

/-! ## `StockService.get_multiple_company_info` -/

/-- One entry of the `results` list `asyncio.gather(..., return_exceptions=True)`
produces in `get_multiple_company_info`: a cached dict (from the
`return_cached` coroutine), a `CompanyInfoSchema` from the executor, or a
captured exception (the `asyncio.TimeoutError` of a timed-out `wait_for`). -/
inductive InfoTaskRes
  | dict (d : CompanyInfoSchema)
  | schema (c : CompanyInfoSchema)
  | exn (msg : String)
deriving DecidableEq, Repr

/-- The task-building loop of `get_multiple_company_info`: per symbol,
check the cache (threading its lazy purges), otherwise submit the fetch
and wrap it in `wait_for(..., timeout)`. -/
def buildInfoTasks (fetchInfo : String → Except String InfoDict)
    (elapsed : String → Nat) (timeout : Nat) (now ttl : Int) :
    List String → Cache CompanyInfoSchema → List InfoTaskRes × Cache CompanyInfoSchema
  | [], c => ([], c)
  | s :: rest, c =>
      let key := get_cache_key s "company_info" []
      match get_from_cache c key now ttl with
      | (some d, c') =>
          let (ts, c'') := buildInfoTasks fetchInfo elapsed timeout now ttl rest c'
          (.dict d :: ts, c'')
      | (none, c') =>
          let r := if timeout < elapsed s then InfoTaskRes.exn "TimeoutError"
                   else InfoTaskRes.schema (fetch_company_info fetchInfo s)
          let (ts, c'') := buildInfoTasks fetchInfo elapsed timeout now ttl rest c'
          (r :: ts, c'')

/-- The result-processing loop of `get_multiple_company_info`: a schema
is appended and counted a success (and cached); a cached dict is
re-validated into a schema, appended and counted a success; an exception
is converted into an error-marked schema, **appended** and counted a
failure. -/
def processInfoResults (now : Int) :
    List (String × InfoTaskRes) → Cache CompanyInfoSchema →
    List (String × CompanyInfoSchema) × Nat × Nat × Cache CompanyInfoSchema
  | [], c => ([], 0, 0, c)
  | (s, r) :: rest, c =>
      match r with
      | .schema sch =>
          let c' := set_cache c (get_cache_key s "company_info" []) sch now
          let (st, su, fa, c'') := processInfoResults now rest c'
          ((s, sch) :: st, su + 1, fa, c'')
      | .dict d =>
          let (st, su, fa, c') := processInfoResults now rest c
          ((s, d) :: st, su + 1, fa, c')
      | .exn m =>
          let errSchema : CompanyInfoSchema :=
            { symbol := s, name := "", business_summary := some ("Error: " ++ m) }
          let (st, su, fa, c') := processInfoResults now rest c
          ((s, errSchema) :: st, su, fa + 1, c')

/-- Embeds `StockService.get_multiple_company_info`: validate all symbols,
build per-symbol tasks (cache hit or timed fetch), gather, then tally
into a `MultipleInfoResponse`. -/
def get_multiple_company_info (fetchInfo : String → Except String InfoDict)
    (elapsed : String → Nat) (timeout : Nat)
    (cache : Cache CompanyInfoSchema) (now ttl : Int) (symbols : List String) :
    Except StockAPIError (MultipleInfoResponse × Cache CompanyInfoSchema) :=
  match validateAll symbols with
  | .error e => .error e
  | .ok validated =>
      let (results, c1) := buildInfoTasks fetchInfo elapsed timeout now ttl validated cache
      let (stocks, su, fa, c2) := processInfoResults now (validated.zip results) c1
      .ok ({ stocks := stocks
             total_stocks := symbols.length
             successful_requests := su
             failed_requests := fa }, c2)

/-! ## Free-text search (`search_stocks`, `_calculate_match_score`) -/

/-- The fixed reference set of `search_stocks`. -/
def stock_database : List (String × String) :=
  [("AAPL", "Apple Inc."), ("GOOGL", "Alphabet Inc."), ("MSFT", "Microsoft Corporation"),
   ("AMZN", "Amazon.com Inc."), ("TSLA", "Tesla Inc."), ("META", "Meta Platforms Inc."),
   ("NVDA", "NVIDIA Corporation"), ("NFLX", "Netflix Inc."),
   ("BABA", "Alibaba Group Holding Ltd."), ("DIS", "The Walt Disney Company"),
   ("PYPL", "PayPal Holdings Inc."), ("ADBE", "Adobe Inc."), ("CRM", "Salesforce Inc."),
   ("INTC", "Intel Corporation"), ("AMD", "Advanced Micro Devices Inc."),
   ("ORCL", "Oracle Corporation"), ("IBM", "International Business Machines Corporation"),
   ("UBER", "Uber Technologies Inc."), ("LYFT", "Lyft Inc."),
   ("SPOT", "Spotify Technology S.A."), ("TWTR", "Twitter Inc."), ("SNAP", "Snap Inc."),
   ("ZM", "Zoom Video Communications Inc."), ("SLACK", "Slack Technologies Inc."),
   ("SQ", "Square Inc."), ("SHOP", "Shopify Inc.")]

/-- Embeds `StockService._calculate_match_score` (`query` is already lowered by
the caller).  The score is a float in the source but every increment is
integral, so `Nat` is exact.  Note the `elif`s: the symbol rules are
mutually exclusive, the name rules are mutually exclusive, and in the
per-word loop the `startswith` branch only fires when the containment
test failed. -/
def calculate_match_score (query symbol name : PyStr) : Nat :=
  let symbolScore := if query = pyLower symbol then 100
                     else if isSubstr query (pyLower symbol) then 50 else 0
  let nameScore := if query = pyLower name then 90
                   else if isSubstr query (pyLower name) then 30 else 0
  let wordScore := (pySplit (pyLower name)).foldl
    (fun acc word =>
      if isSubstr query word then acc + 20
      else if query.isPrefixOf word then acc + 15
      else acc) 0
  symbolScore + nameScore + wordScore

/-- One scored candidate row `{'symbol': …, 'name': …, 'match_score': …}`. -/
abbrev ScoredRow := String × String × Nat

/-- The comparison `results.sort(key=lambda x: x['match_score'], reverse=True)`
realises: descending by score, stable. -/
def scoreRel (a b : ScoredRow) : Prop := b.2.2 ≤ a.2.2

instance : DecidableRel scoreRel := fun a b => by unfold scoreRel; infer_instance

instance : IsTotal ScoredRow scoreRel where
  total a b := Nat.le_total b.2.2 a.2.2

instance : IsTrans ScoredRow scoreRel where
  trans _ _ _ hab hbc := le_trans hbc hab

/-- The dict returned by `search_stocks` (`query` echoed back). -/
structure SearchResult where
  search_results : List (String × String)
  total_results : Nat
  query : String
deriving DecidableEq, Repr

/-- The scored-candidate list `search_stocks` builds: keep a database
row if the lowered query is in the symbol, in the name, or in one of the
name's words, attaching its `match_score`. -/
def scoredResults (query : String) : List ScoredRow :=
  stock_database.filterMap (fun p =>
    if isSubstr (pyLower query.toList) (pyLower p.1.toList) ||
        isSubstr (pyLower query.toList) (pyLower p.2.toList) ||
        (pySplit p.2.toList).any (fun word => isSubstr (pyLower query.toList) (pyLower word))
    then some ((p.1, p.2, calculate_match_score (pyLower query.toList) p.1.toList p.2.toList)
      : ScoredRow)
    else none)

/-- Embeds `StockService.search_stocks`: filter the reference set by the
membership condition, attach scores, sort descending by score (stable),
strip the score, truncate to 20. -/
def search_stocks (query : String) : SearchResult :=
  let sorted := (scoredResults query).insertionSort scoreRel
  { search_results := (sorted.take 20).map (fun r => (r.1, r.2.1))
    total_results := sorted.length
    query := query }

/-! ## Holdings enrichment (`broker_service.py`) -/

/-- A normalized holdings row (after `fetch_holdings`' defaulting). -/
structure HoldingRow where
  exchange : String := "UNKNOWN"
  tradingSymbol : String := "UNKNOWN"
  securityId : String := "NA"
  availableQty : Int := 0
  totalQty : Int := 0
  isin : String := "NA"
  avgCostPrice : ℚ := 0
  brokerName : String := "dhan"
deriving DecidableEq, Repr

/-- The fixed exception list `BOList` of `fetch_holdings`. -/
def BOList : List String := ["INDIGRID"]

/-- The derived `quote` column: `.NS` for NSE/ALL symbols not in
`BOList`, `.BO` otherwise. -/
def quoteOf (row : HoldingRow) : String :=
  if (row.exchange == "NSE" || row.exchange == "ALL") && !(BOList.contains row.tradingSymbol)
  then row.tradingSymbol ++ ".NS" else row.tradingSymbol ++ ".BO"

/-- One merged output row of `get_enriched_holdings`; the `{}` the code
uses for an unmatched price/info is modelled as `none`. -/
structure EnrichedRow where
  row : HoldingRow
  quote : String
  price : Option StockQuote
  info : Option CompanyInfoSchema
deriving DecidableEq, Repr

/-- Lookup in the dict comprehension `{k: v for item in stocks …}`:
with duplicate keys the **last** binding wins. -/
def lookupLast {β : Type} (l : List (String × β)) (k : String) : Option β :=
  (l.reverse.find? (fun p => p.1 == k)).map (fun p => p.2)

/-- Embeds `BrokerService.get_enriched_holdings`, from the already-normalized
rows: derive quote keys, run both batch operations, then left-join each
row with its price (`next(..., {})` — first match) and its info
(dict lookup). -/
def get_enriched_holdings (fetch : String → FetchOutcome)
    (fetchInfo : String → Except String InfoDict)
    (elapsed : String → Nat) (timeout : Nat)
    (cache : Cache CompanyInfoSchema) (now ttl : Int)
    (rows : List HoldingRow) : Except StockAPIError (List EnrichedRow) :=
  let quotes := rows.map quoteOf
  match get_multiple_stocks fetch quotes with
  | .error e => .error e
  | .ok stock_price_map =>
      match get_multiple_company_info fetchInfo elapsed timeout cache now ttl quotes with
      | .error e => .error e
      | .ok (company_info_response, _) =>
          .ok (rows.map (fun r =>
            { row := r
              quote := quoteOf r
              price := stock_price_map.trending_stocks.find? (fun s => s.symbol == quoteOf r)
              info := lookupLast company_info_response.stocks (quoteOf r) }))

/-! ## Spec-side definitions and discriminators used by the theorems -/

/-- Tests whether the dict carries the embedded `'error'` marker. -/
def SafeDict.isErr : SafeDict → Bool
  | .quote _ => false
  | .errDict _ _ => true

/-- Tests whether the gathered result is a captured exception. -/
def InfoTaskRes.isExn : InfoTaskRes → Bool
  | .dict _ => false
  | .schema _ => false
  | .exn _ => true

/-- Claim C7's scoring rule read literally as an additive sum over all
matching rules: 100 for an exact symbol match, 50 for a proper substring
of the symbol, 90 for an exact name match, 30 for a substring of the
name, and per word of the name 20 if the word contains the query
**and** 15 if the word starts with the query.  (Spec-derived definition,
kept for comparison against `calculate_match_score`.) -/
def claimed_match_score (query symbol name : PyStr) : Nat :=
  (if query = pyLower symbol then 100 else 0) +
  (if isSubstr query (pyLower symbol) ∧ query ≠ pyLower symbol then 50 else 0) +
  (if query = pyLower name then 90 else 0) +
  (if isSubstr query (pyLower name) then 30 else 0) +
  (pySplit (pyLower name)).foldl
    (fun acc word =>
      acc + (if isSubstr query word then 20 else 0) +
        (if query.isPrefixOf word then 15 else 0)) 0

/-- Recompute a search result's score from the query (scores are a
function of `(query, symbol, name)`, so stripping them is recoverable). -/
def scoreOf (query : String) (p : String × String) : Nat :=
  calculate_match_score (pyLower query.toList) p.1.toList p.2.toList

/-! ## Concrete fixtures for witnesses -/

/-- Witness quote with market cap 5. -/
def wQuoteA : StockQuote := { symbol := "A", market_cap := some 5 }

/-- Witness quote with market cap 7. -/
def wQuoteB : StockQuote := { symbol := "B", market_cap := some 7 }

/-- Witness adapter: succeeds on `A` and `B`, raises otherwise. -/
def wFetch : String → FetchOutcome := fun s =>
  if s = "A" then .ok wQuoteA else if s = "B" then .ok wQuoteB else .exn "no data"

/-- Witness price payload. -/
def wPrice : StockPriceSchema := { symbol := "AAPL" }

/-- Witness price adapter: always succeeds with `wPrice`. -/
def wPriceFetch : String → Except StockAPIError StockPriceSchema := fun _ => .ok wPrice

/-- Witness holdings row: an NSE symbol stored lowercase by the broker,
so its derived quote key `abc.NS` differs from the validated (uppercased)
symbol `ABC.NS` used by both batch results. -/
def wRow : HoldingRow := { exchange := "NSE", tradingSymbol := "abc" }

/-- The company info the witness run fetches for `ABC.NS`. -/
def wInfo : CompanyInfoSchema := { symbol := "ABC.NS" }

/-- Batch price result of the witness holdings run (the price fetch for
`abc.NS` fails, so nothing is kept). -/
def wSpm : MultipleStocksResult :=
  { trending_stocks := [], total_stocks := 0, market_status := "active" }

/-- Batch info result of the witness holdings run. -/
def wCir : MultipleInfoResponse :=
  { stocks := [("ABC.NS", wInfo)], total_stocks := 1
    successful_requests := 1, failed_requests := 0 }

/-- Cache state after the witness holdings run. -/
def wCache : Cache CompanyInfoSchema := [("ABC.NS:company_info", wInfo, 0)]

/-- Batch result of the witness run over `["A", "B", "C"]` (the fetch
for `C` raises): the two kept quotes, sorted descending by market cap. -/
def wStocksRes : MultipleStocksResult :=
  { trending_stocks := [wQuoteB, wQuoteA], total_stocks := 2, market_status := "active" }

/-- The enriched output row of the witness holdings run: present, with
empty (`none`) price and info. -/
def wEnriched : EnrichedRow :=
  { row := wRow, quote := "abc.NS", price := none, info := none }

/-! ## Helper lemmas -/

theorem cacheLookup_set {α : Type} (c : Cache α) (k : String) (d : α) (t0 : Int) :
    cacheLookup (set_cache c k d t0) k = some (d, t0) := by
  simp [cacheLookup, set_cache, List.find?]

theorem cacheLookup_erase {α : Type} (c : Cache α) (k : String) :
    cacheLookup (cacheErase c k) k = none := by
  induction c with
  | nil => rfl
  | cons e t ih =>
      by_cases h : e.1 == k
      · simp only [cacheErase, List.filter_cons, h] at ih ⊢
        simp only [Bool.not_true, Bool.false_eq_true, if_neg] at ih ⊢
        exact ih
      · simp only [cacheErase, cacheLookup, List.filter_cons, List.find?, h] at ih ⊢
        simp [h, ih]

theorem get_from_cache_set_fresh {α : Type} (c : Cache α) (k : String) (d : α)
    (t0 t ttl : Int) (h : t - t0 < ttl) :
    get_from_cache (set_cache c k d t0) k t ttl = (some d, set_cache c k d t0) := by
  simp [get_from_cache, cacheLookup_set, h]

theorem get_from_cache_set_expired {α : Type} (c : Cache α) (k : String) (d : α)
    (t0 t ttl : Int) (h : ttl ≤ t - t0) :
    get_from_cache (set_cache c k d t0) k t ttl
      = (none, cacheErase (set_cache c k d t0) k) := by
  simp [get_from_cache, cacheLookup_set, not_lt.mpr h]

theorem validateAll_length (symbols validated : List String)
    (h : validateAll symbols = .ok validated) : validated.length = symbols.length := by
  induction symbols generalizing validated with
  | nil => simp [validateAll] at h; simp [← h]
  | cons s rest ih =>
      simp only [validateAll] at h
      cases hv : validateSymbolS s with
      | error e => rw [hv] at h; exact absurd h (by simp)
      | ok v =>
          rw [hv] at h
          cases hr : validateAll rest with
          | error e => rw [hr] at h; exact absurd h (by simp)
          | ok vs =>
              rw [hr] at h
              simp only [Except.ok.injEq] at h
              subst h
              simp [ih vs hr]

theorem filter_orderedInsert (a : StockQuote) (l : List StockQuote) (c : Int) :
    (l.orderedInsert descRel a).filter (fun q => sortKey q == c)
      = if sortKey a == c then a :: l.filter (fun q => sortKey q == c)
        else l.filter (fun q => sortKey q == c) := by
  induction l with
  | nil => by_cases h : sortKey a == c <;> simp [List.orderedInsert, List.filter, h]
  | cons b t ih =>
      by_cases hab : descRel a b
      · by_cases ha : sortKey a == c <;> by_cases hb : sortKey b == c <;>
          simp [List.orderedInsert, hab, List.filter_cons, ha, hb]
      · have hlt : sortKey a < sortKey b := lt_of_not_le hab
        have hne : ¬ (sortKey a == c ∧ sortKey b == c) := by
          rintro ⟨h1, h2⟩
          rw [beq_iff_eq] at h1 h2
          omega
        simp only [List.orderedInsert, if_neg hab, List.filter_cons]
        by_cases hb : sortKey b == c
        · have ha : ¬ (sortKey a == c) = true := fun h1 => hne ⟨h1, hb⟩
          simp [hb, ih, ha]
        · by_cases ha : sortKey a == c <;> simp [hb, ih, ha]

theorem filter_insertionSort (l : List StockQuote) (c : Int) :
    (l.insertionSort descRel).filter (fun q => sortKey q == c)
      = l.filter (fun q => sortKey q == c) := by
  induction l with
  | nil => rfl
  | cons a t ih =>
      simp only [List.insertionSort, filter_orderedInsert, List.filter_cons]
      by_cases h : sortKey a == c <;> simp [h, ih]

/-- Kept results plus error-marked results account for every symbol. -/
theorem keptQuotes_length (fetch : String → FetchOutcome) (validated : List String) :
    (keptQuotes fetch validated).length
        + (validated.map (safe_fetch_stock_data fetch)).countP SafeDict.isErr
      = validated.length := by
  induction validated with
  | nil => rfl
  | cons s rest ih =>
      simp only [keptQuotes, List.map_cons, List.filterMap_cons, List.countP_cons] at ih ⊢
      cases h : safe_fetch_stock_data fetch s <;>
        simp [SafeDict.isErr, List.length_cons, ← ih, keptQuotes] <;> omega

theorem buildInfoTasks_length (fetchInfo : String → Except String InfoDict)
    (elapsed : String → Nat) (timeout : Nat) (now ttl : Int)
    (validated : List String) (cache : Cache CompanyInfoSchema) :
    (buildInfoTasks fetchInfo elapsed timeout now ttl validated cache).1.length
      = validated.length := by
  induction validated generalizing cache with
  | nil => rfl
  | cons s rest ih =>
      simp only [buildInfoTasks]
      cases h : get_from_cache cache (get_cache_key s "company_info" []) now ttl with
      | mk o c' => cases o <;> simp [ih]

@[simp] theorem isExn_dict (d : CompanyInfoSchema) : (InfoTaskRes.dict d).isExn = false := rfl

@[simp] theorem isExn_schema (c : CompanyInfoSchema) : (InfoTaskRes.schema c).isExn = false := rfl

@[simp] theorem isExn_exn (m : String) : (InfoTaskRes.exn m).isExn = true := rfl

/-- Shape facts about the result-processing loop: one output entry per
gathered result, successes and failures partition the results, failures
are exactly the captured exceptions, and output keys follow the input
symbols in order. -/
theorem processInfoResults_spec (now : Int) (pairs : List (String × InfoTaskRes))
    (c : Cache CompanyInfoSchema) :
    (processInfoResults now pairs c).1.length = pairs.length ∧
    (processInfoResults now pairs c).2.1 + (processInfoResults now pairs c).2.2.1
      = pairs.length ∧
    (processInfoResults now pairs c).2.2.1
      = pairs.countP (fun p => p.2.isExn) ∧
    (processInfoResults now pairs c).1.map (fun p => p.1) = pairs.map (fun p => p.1) := by
  induction pairs generalizing c with
  | nil => exact ⟨rfl, rfl, rfl, rfl⟩
  | cons p rest ih =>
      obtain ⟨s, r⟩ := p
      cases r with
      | schema sch =>
          have ih' := ih (set_cache c (get_cache_key s "company_info" []) sch now)
          rcases hrec : processInfoResults now rest
              (set_cache c (get_cache_key s "company_info" []) sch now) with ⟨st, su, fa, cc⟩
          rw [hrec] at ih'
          obtain ⟨h1, h2, h3, h4⟩ := ih'
          simp at h1 h2 h3 h4
          simp [processInfoResults, hrec, List.countP_cons, h1, h3, h4]
          omega
      | dict d =>
          have ih' := ih c
          rcases hrec : processInfoResults now rest c with ⟨st, su, fa, cc⟩
          rw [hrec] at ih'
          obtain ⟨h1, h2, h3, h4⟩ := ih'
          simp at h1 h2 h3 h4
          simp [processInfoResults, hrec, List.countP_cons, h1, h3, h4]
          omega
      | exn m =>
          have ih' := ih c
          rcases hrec : processInfoResults now rest c with ⟨st, su, fa, cc⟩
          rw [hrec] at ih'
          obtain ⟨h1, h2, h3, h4⟩ := ih'
          simp at h1 h2 h3 h4
          simp [processInfoResults, hrec, List.countP_cons, h1, h3, h4]
          omega

/-- Starting a word with the query implies containing the query, so the
`elif word.startswith(query)` branch of the scoring loop is dead code. -/
theorem isPrefixOf_isSubstr (q w : PyStr) (h : q.isPrefixOf w = true) :
    isSubstr q w = true := by
  cases w with
  | nil =>
      cases q with
      | nil => rfl
      | cons a t => simp [List.isPrefixOf] at h
  | cons c t => simp [isSubstr, h]

theorem word_score_foldl (q : PyStr) (l : List PyStr) (acc : Nat) :
    l.foldl (fun acc word =>
        if isSubstr q word then acc + 20
        else if q.isPrefixOf word then acc + 15
        else acc) acc
      = acc + 20 * l.countP (fun w => isSubstr q w) := by
  induction l generalizing acc with
  | nil => simp
  | cons w t ih =>
      simp only [List.foldl_cons, List.countP_cons]
      by_cases hs : isSubstr q w = true
      · rw [if_pos hs, ih (acc + 20)]
        simp [hs]
        omega
      · have hp : ¬ q.isPrefixOf w = true := fun hh => hs (isPrefixOf_isSubstr q w hh)
        rw [if_neg hs, if_neg hp, ih acc]
        simp [hs]

theorem pyStrip_ne_nil {s : PyStr} (h : ∃ x ∈ s, ¬ x.isWhitespace) : pyStrip s ≠ [] := by
  obtain ⟨x, hx, hxw⟩ := h
  have hsplit : x ∈ s.takeWhile Char.isWhitespace ++ s.dropWhile Char.isWhitespace := by
    rw [List.takeWhile_append_dropWhile]; exact hx
  have hx1 : x ∈ s.dropWhile Char.isWhitespace := by
    rcases List.mem_append.mp hsplit with h1 | h1
    · exact absurd (List.mem_takeWhile_imp h1) (by simpa using hxw)
    · exact h1
  have hx2 : x ∈ (s.dropWhile Char.isWhitespace).reverse := List.mem_reverse.mpr hx1
  intro hnil
  unfold pyStrip at hnil
  have hdw := List.reverse_eq_nil_iff.mp hnil
  have hall := List.dropWhile_eq_nil_iff.mp hdw
  exact hxw (by simpa using hall x hx2)

/-- Counting a predicate on the second components of a zip of
equal-length lists counts it on the second list. -/
theorem countP_zip_snd {α β : Type} (f : β → Bool) :
    ∀ (l1 : List α) (l2 : List β), l1.length = l2.length →
      (l1.zip l2).countP (fun p => f p.2) = l2.countP f
  | [], [], _ => rfl
  | [], _ :: _, h => by simp at h
  | _ :: _, [], h => by simp at h
  | a :: t1, b :: t2, h => by
      simp only [List.zip_cons_cons, List.countP_cons]
      rw [countP_zip_snd f t1 t2 (by simpa using h)]

/-! ## The claims -/

/-- Claim C3. Cache TTL semantics: a payload stored at `t0` with
time-to-live `ttl` is returned unchanged by any read at `t` with
`t - t0 < ttl` (and the cache is untouched), while a read at `t` with
`t - t0 ≥ ttl` misses and removes the key from the store. -/
theorem cache_ttl_visibility {α : Type} (c : Cache α) (k : String) (d : α)
    (t0 t ttl : Int) :
    (t - t0 < ttl →
      get_from_cache (set_cache c k d t0) k t ttl = (some d, set_cache c k d t0)) ∧
    (ttl ≤ t - t0 →
      (get_from_cache (set_cache c k d t0) k t ttl).1 = none ∧
      cacheLookup (get_from_cache (set_cache c k d t0) k t ttl).2 k = none) := by
  constructor
  · exact get_from_cache_set_fresh c k d t0 t ttl
  · intro h
    rw [get_from_cache_set_expired c k d t0 t ttl h]
    exact ⟨rfl, cacheLookup_erase _ _⟩

/-- Witness for C3: a value stored at time 0 with TTL 300 is readable at
299 and gone (with its key purged) at 300. -/
theorem cache_ttl_visibility_witness :
    get_from_cache (set_cache ([] : Cache Nat) "AAPL:price" 42 0) "AAPL:price" 299 300
      = (some 42, set_cache [] "AAPL:price" 42 0) ∧
    (get_from_cache (set_cache ([] : Cache Nat) "AAPL:price" 42 0) "AAPL:price" 300 300).1
      = none :=
  ⟨(cache_ttl_visibility [] "AAPL:price" 42 0 299 300).1 (by decide),
   ((cache_ttl_visibility [] "AAPL:price" 42 0 300 300).2 (by decide)).1⟩

/-- Claim C9. Cache-key determinism: the key built from any two orderings
of the same parameter set is identical (`sorted(kwargs.items())`
canonicalises the order before concatenation). -/
theorem cache_key_order_insensitive (symbol data_type : String)
    (kw1 kw2 : List (String × String)) (h : kw1.Perm kw2) :
    get_cache_key symbol data_type kw1 = get_cache_key symbol data_type kw2 := by
  have hs : kw1.insertionSort pairLe = kw2.insertionSort pairLe :=
    List.eq_of_perm_of_sorted
      (((List.perm_insertionSort pairLe kw1).trans h).trans
        (List.perm_insertionSort pairLe kw2).symm)
      (List.sorted_insertionSort pairLe kw1) (List.sorted_insertionSort pairLe kw2)
  unfold get_cache_key
  rw [hs]

/-- Witness for C9: `key(sym, op, {a:1, b:2}) = key(sym, op, {b:2, a:1})`. -/
theorem cache_key_order_insensitive_witness :
    get_cache_key "AAPL" "history" [("a", "1"), ("b", "2")]
      = get_cache_key "AAPL" "history" [("b", "2"), ("a", "1")] :=
  cache_key_order_insensitive "AAPL" "history" _ _ (List.Perm.swap _ _ _)

/-- Claim C10. The function `calculate_change` never divides by zero: `previous = 0`
yields exactly `(0.0, 0.0)`, otherwise it returns the absolute and
percentage change, each rounded to 2 decimal places (both components are
integer multiples of 1/100). -/
theorem calculate_change_safe (current previous : ℚ) :
    (previous = 0 → calculate_change current previous = (0, 0)) ∧
    (previous ≠ 0 →
      calculate_change current previous
        = (pyRound2 (current - previous),
           pyRound2 ((current - previous) / previous * 100))) ∧
    ((calculate_change current previous).1 * 100).den = 1 ∧
    ((calculate_change current previous).2 * 100).den = 1 := by
  have hden : ∀ x : ℚ, (pyRound2 x * 100).den = 1 := by
    intro x
    have hx : pyRound2 x * 100 = ((round (x * 100) : ℤ) : ℚ) := by
      unfold pyRound2
      field_simp
    rw [hx, Rat.den_intCast]
  refine ⟨fun h => by simp [calculate_change, h],
          fun h => by simp [calculate_change, h], ?_, ?_⟩ <;>
    by_cases h : previous = 0 <;> simp [calculate_change, h, hden]

/-- Witness for C10: `(3, 0) ↦ (0, 0)` and `(5, 2) ↦ (3, 150)`. -/
theorem calculate_change_safe_witness :
    calculate_change 3 0 = (0, 0) ∧
    calculate_change 5 2 = (pyRound2 (5 - 2), pyRound2 ((5 - 2) / 2 * 100)) :=
  ⟨(calculate_change_safe 3 0).1 rfl,
   (calculate_change_safe 5 2).2.1 (by norm_num)⟩

/-- Claim C5, counterexample. The claim says validation either raises
`InvalidSymbol` or returns a never-empty normalized symbol.  On the
whitespace-only input `" "` (truthy in Python, so the guard does not
fire) `validate_symbol` raises nothing and returns the **empty** string:
the claimed invariant fails. -/
theorem validate_symbol_blank_counterexample :
    validate_symbol [' '] = .ok [] ∧ ([] : PyStr).length = 0 := by
  exact ⟨rfl, rfl⟩

/-- Claim C5, amended. Validation raises `InvalidSymbol` exactly on
the empty string (and then no adapter call is ever made), and otherwise
returns the trimmed, uppercased input — which is non-empty whenever the
input contains at least one non-whitespace character (whitespace-only
inputs yield the empty symbol). -/
theorem validate_symbol_amended (symbol : PyStr) :
    (symbol = [] → validate_symbol symbol = .error (.invalidSymbol "")) ∧
    (symbol ≠ [] →
      validate_symbol symbol = .ok (pyUpper (pyStrip symbol)) ∧
      ((∃ ch ∈ symbol, ¬ ch.isWhitespace) → pyUpper (pyStrip symbol) ≠ [])) ∧
    (symbol = [] → ∀ fetch elapsed timeout cache now ttl,
      (get_stock_price fetch elapsed timeout cache now ttl symbol).2 = 0 ∧
      (get_stock_price fetch elapsed timeout cache now ttl symbol).1
        = .error (.invalidSymbol "")) := by
  refine ⟨fun h => by simp [validate_symbol, h], fun h => ?_, fun h => ?_⟩
  · constructor
    · simp [validate_symbol, h]
    · intro hex hnil
      exact pyStrip_ne_nil hex (by simpa [pyUpper, List.map_eq_nil_iff] using hnil)
  · intro fetch elapsed timeout cache now ttl
    subst h
    constructor <;> rfl

/-- Witness for C5 (amended): `" aapl"` normalizes to the non-empty
`"AAPL"`, and the empty symbol is rejected with zero adapter calls. -/
theorem validate_symbol_amended_witness :
    validate_symbol (" aapl".toList) = .ok ("AAPL".toList) ∧
    (get_stock_price wPriceFetch (fun _ => 0) 30 [] 0 300 []).2 = 0 := by
  have h := (validate_symbol_amended (" aapl".toList)).2.1 (by decide)
  have h3 := ((validate_symbol_amended ([] : PyStr)).2.2 rfl
      wPriceFetch (fun _ => 0) 30 [] 0 300).1
  exact ⟨by rw [h.1]; decide, h3⟩

/-- Claim C2. Timeout typing at the adapter boundary: `get_stock_price`
(like history/financials/dividends/splits/recommendations, which share
its `try/except asyncio.TimeoutError` template) converts a unit of work
exceeding `timeout_seconds` into the typed `TimeoutException` (408) —
but `get_company_info` has no such handler, so the same timeout escapes
as the bare `asyncio.TimeoutError`, which the controller's generic
handler turns into a 500 internal error, contradicting the claim for the
`info` operation.  Evaluated at the failing input: adapter elapsed 31 s
against `timeout_seconds = 30`, empty cache. -/
theorem single_symbol_timeout_typing :
    (get_stock_price wPriceFetch (fun _ => 31) 30 [] 0 300 ("AAPL".toList)).1
      = .error .timeoutException ∧
    StockAPIError.timeoutException.statusCode = 408 ∧
    (get_company_info (fun _ => .ok {}) (fun _ => 31) 30 [] 0 300 ("AAPL".toList)).1
      = .error .asyncTimeout ∧
    StockAPIError.asyncTimeout.statusCode = 500 ∧
    StockAPIError.asyncTimeout ≠ StockAPIError.timeoutException := by
  exact ⟨rfl, rfl, rfl, rfl, by decide⟩

/-- Claim C4, counterexample. The dependency `Depends(get_stock_service)` constructs a
fresh `StockService()` (with an empty cache) for every request, so two
identical price requests 10 s apart — well inside the 300 s TTL — each
issue one adapter call: the claimed "at most one underlying adapter call"
fails end to end. -/
theorem repeat_request_two_fetches_counterexample :
    (handle_price_request wPriceFetch (fun _ => 0) 30 0 300 ("AAPL".toList)).2 = 1 ∧
    (handle_price_request wPriceFetch (fun _ => 0) 30 10 300 ("AAPL".toList)).2 = 1 ∧
    ¬ ((handle_price_request wPriceFetch (fun _ => 0) 30 0 300 ("AAPL".toList)).2 +
       (handle_price_request wPriceFetch (fun _ => 0) 30 10 300 ("AAPL".toList)).2 ≤ 1) := by
  exact ⟨rfl, rfl, by decide⟩

/-- Claim C4, amended.  On one and the same `StockService` instance the
claim holds: if a first `get_stock_price` call fetched successfully
(one adapter call) at `now1`, then repeating the request against the
resulting cache at any `now2` with `now2 - now1 < ttl` performs **zero**
adapter calls and returns the identical payload from the cache. -/
theorem repeat_request_cached_amended
    (fetch : String → Except StockAPIError StockPriceSchema)
    (elapsed : String → Nat) (timeout : Nat) (cache : Cache StockPriceSchema)
    (now1 now2 ttl : Int) (symbol : PyStr) (r : StockPriceSchema)
    (c1 : Cache StockPriceSchema)
    (h1 : get_stock_price fetch elapsed timeout cache now1 ttl symbol = (.ok (r, c1), 1))
    (ht : now2 - now1 < ttl) :
    get_stock_price fetch elapsed timeout c1 now2 ttl symbol = (.ok (r, c1), 0) := by
  unfold get_stock_price at h1 ⊢
  split at h1
  · exact absurd h1 (by simp)
  next symChars hv =>
    dsimp only at h1 ⊢
    split at h1
    next d c' hc => exact absurd h1 (by simp)
    next c' hc =>
      split at h1
      · exact absurd h1 (by simp)
      next hto =>
        split at h1
        next rr hf =>
          simp only [Prod.mk.injEq, Except.ok.injEq] at h1
          obtain ⟨⟨hr, hcc⟩, -⟩ := h1
          subst hr
          rw [← hcc,
            get_from_cache_set_fresh c' (get_cache_key (String.mk symChars) "price" []) rr
              now1 now2 ttl ht]
        next e hf => exact absurd h1 (by simp)

/-- Witness for C4 (amended): a first fetch at time 0 (one adapter
call), then the same request at time 10 within TTL 300 — served from
cache with zero adapter calls. -/
theorem repeat_request_cached_amended_witness :
    get_stock_price wPriceFetch (fun _ => 0) 30
        [("AAPL:price", wPrice, 0)] 10 300 ("AAPL".toList)
      = (.ok (wPrice, [("AAPL:price", wPrice, 0)]), 0) := by
  have h := repeat_request_cached_amended wPriceFetch (fun _ => 0) 30 [] 0 10 300
    ("AAPL".toList) wPrice [("AAPL:price", wPrice, 0)] (by decide) (by decide)
  exact h

/-- Claim C1, counterexample.  In `get_multiple_company_info` over one
symbol whose adapter call fails (`N = 1`, `k = 1`), the error is caught
inside `_fetch_company_info` and returned as an error-marked schema,
which the tallying loop counts as a **success** and **includes** in the
output: the response reports `successful_requests = 1`,
`failed_requests = 0` and one output entry (carrying the embedded
`"Error: …"` marker) — where the claim demands `0`, `1` and an empty
output. -/
theorem batch_info_partial_failure_counterexample :
    (get_multiple_company_info (fun _ => .error "boom") (fun _ => 0) 30 [] 0 300
        ["AAA"]).map
        (fun p => (p.1.successful_requests, p.1.failed_requests, p.1.stocks.length,
                   p.1.stocks.map (fun q => q.2.business_summary)))
      = .ok (1, 0, 1, [some "Error: boom"]) ∧
    ¬ ((1 : Nat), (0 : Nat), (1 : Nat)) = ((0 : Nat), (1 : Nat), (0 : Nat)) := by
  exact ⟨rfl, by decide⟩

/-- Claim C1, amended.  The two batch operations implement the claimed
accounting differently.  (1) `get_multiple_stocks` excludes error-marked
entries: with `k` failing adapter calls out of `N`, the output is
exactly the `N - k` well-formed payloads and `total_stocks = N - k`, but
the response carries **no** success/failure counters.  (2)
`get_multiple_company_info` reports counters, yet every symbol produces
exactly one output entry (`N` entries, error-marked ones included);
`failed_requests` counts only task-level exceptions (timeouts) — an
adapter error caught inside `_fetch_company_info` is counted as a
success. -/
theorem batch_partial_failure_amended :
    (∀ (fetch : String → FetchOutcome) (symbols validated : List String)
        (res : MultipleStocksResult),
      validateAll symbols = .ok validated →
      get_multiple_stocks fetch symbols = .ok res →
      res.total_stocks = res.trending_stocks.length ∧
      res.trending_stocks.Perm (keptQuotes fetch validated) ∧
      res.trending_stocks.length
          + (validated.map (safe_fetch_stock_data fetch)).countP SafeDict.isErr
        = symbols.length) ∧
    (∀ (fetchInfo : String → Except String InfoDict) (elapsed : String → Nat)
        (timeout : Nat) (cache : Cache CompanyInfoSchema) (now ttl : Int)
        (symbols validated : List String) (resp : MultipleInfoResponse)
        (c2 : Cache CompanyInfoSchema),
      validateAll symbols = .ok validated →
      get_multiple_company_info fetchInfo elapsed timeout cache now ttl symbols
        = .ok (resp, c2) →
      resp.stocks.length = symbols.length ∧
      resp.successful_requests + resp.failed_requests = symbols.length ∧
      resp.failed_requests
        = (buildInfoTasks fetchInfo elapsed timeout now ttl validated cache).1.countP
            InfoTaskRes.isExn) := by
  constructor
  · intro fetch symbols validated res hval h
    simp only [get_multiple_stocks, hval] at h
    rw [Except.ok.injEq] at h
    subst h
    refine ⟨rfl, ?_, ?_⟩
    · exact List.perm_insertionSort descRel _
    · have hlen : (List.insertionSort descRel (keptQuotes fetch validated)).length
          = (keptQuotes fetch validated).length :=
        (List.perm_insertionSort descRel _).length_eq
      have hk := keptQuotes_length fetch validated
      have hvl := validateAll_length symbols validated hval
      simp only [keptQuotes] at hlen hk ⊢
      omega
  · intro fetchInfo elapsed timeout cache now ttl symbols validated resp c2 hval h
    simp only [get_multiple_company_info, hval] at h
    rcases hb : buildInfoTasks fetchInfo elapsed timeout now ttl validated cache
      with ⟨results, c1⟩
    rw [hb] at h
    rcases hp : processInfoResults now (validated.zip results) c1
      with ⟨stocks, su, fa, cc⟩
    rw [hp] at h
    simp only [Except.ok.injEq, Prod.mk.injEq] at h
    obtain ⟨⟨rfl, rfl⟩⟩ := h
    have hs := processInfoResults_spec now (validated.zip results) c1
    rw [hp] at hs
    obtain ⟨h1, h2, h3, h4⟩ := hs
    simp only at h1 h2 h3 h4
    have hvl := validateAll_length symbols validated hval
    have hbl := buildInfoTasks_length fetchInfo elapsed timeout now ttl validated cache
    rw [hb] at hbl
    simp only at hbl
    have hzip : (validated.zip results).length = validated.length := by
      rw [List.length_zip, hbl, hvl]
      simp [hvl]
    have hcz : (validated.zip results).countP (fun p => p.2.isExn)
        = results.countP InfoTaskRes.isExn := by
      have := countP_zip_snd (InfoTaskRes.isExn) validated results (by omega)
      simpa using this
    refine ⟨by simp [h1, hzip, hvl], by dsimp only; omega, by dsimp only; rw [h3, hcz]⟩

/-- Witness for C1 (amended): three symbols, one failing adapter call —
the stocks batch keeps exactly the 2 well-formed payloads and
`2 + 1 = 3`; the info batch (all fetches erroring) still outputs 3
entries with `successful_requests = 3`, `failed_requests = 0`. -/
theorem batch_partial_failure_amended_witness :
    (wStocksRes.total_stocks = wStocksRes.trending_stocks.length ∧
      wStocksRes.trending_stocks.length
          + ((["A", "B", "C"].map (safe_fetch_stock_data wFetch)).countP SafeDict.isErr)
        = 3) ∧
    ((get_multiple_company_info (fun _ => .error "down") (fun _ => 0) 30 [] 0 300
        ["A", "B", "C"]).map (fun p => p.1.stocks.length) = .ok 3) := by
  have hA := batch_partial_failure_amended.1 wFetch ["A", "B", "C"] ["A", "B", "C"]
    wStocksRes (by decide) (by decide)
  exact ⟨⟨hA.1, hA.2.2⟩, by decide⟩

/-- Claim C6. Both batch sorts (`get_multiple_stocks` and the market
service's `get_trending_stocks`) order the included results descending
by market capitalization with a missing market cap treated as zero
(`x.get('market_cap', 0) or 0`), and the sort is stable: the output is a
permutation of the kept results, sorted under `descRel`, and for every
key value the sub-sequence of results with that key keeps its original
submission order (its filter is unchanged by the sort). -/
theorem batch_sort_desc_stable :
    (∀ (fetch : String → FetchOutcome) (symbols validated : List String)
        (res : MultipleStocksResult),
      validateAll symbols = .ok validated →
      get_multiple_stocks fetch symbols = .ok res →
      res.trending_stocks.Perm (keptQuotes fetch validated) ∧
      List.Sorted descRel res.trending_stocks ∧
      ∀ c : Int, res.trending_stocks.filter (fun q => sortKey q == c)
        = (keptQuotes fetch validated).filter (fun q => sortKey q == c)) ∧
    (∀ (fetchT : String → TrendOutcome) (trending_symbols : List String),
      (get_trending_stocks fetchT trending_symbols).trending_stocks.Perm
        (tallyTrending (trending_symbols.map fetchT)).1 ∧
      List.Sorted descRel (get_trending_stocks fetchT trending_symbols).trending_stocks ∧
      ∀ c : Int,
        (get_trending_stocks fetchT trending_symbols).trending_stocks.filter
            (fun q => sortKey q == c)
          = (tallyTrending (trending_symbols.map fetchT)).1.filter
              (fun q => sortKey q == c)) := by
  constructor
  · intro fetch symbols validated res hval h
    simp only [get_multiple_stocks, hval] at h
    rw [Except.ok.injEq] at h
    subst h
    exact ⟨List.perm_insertionSort descRel _,
           List.sorted_insertionSort descRel _,
           fun c => filter_insertionSort _ c⟩
  · intro fetchT trending_symbols
    rcases ht : tallyTrending (trending_symbols.map fetchT) with ⟨qs, su, fa⟩
    simp only [get_trending_stocks, ht]
    exact ⟨List.perm_insertionSort descRel _,
           List.sorted_insertionSort descRel _,
           fun c => filter_insertionSort _ c⟩

/-- Witness for C6: on the concrete batch over `["A", "B", "C"]` the
output is sorted descending (7 before 5) and the key-5 sub-sequence is
untouched by the sort. -/
theorem batch_sort_desc_stable_witness :
    List.Sorted descRel wStocksRes.trending_stocks ∧
    wStocksRes.trending_stocks.filter (fun q => sortKey q == 5)
      = (keptQuotes wFetch ["A", "B", "C"]).filter (fun q => sortKey q == 5) := by
  have h := batch_sort_desc_stable.1 wFetch ["A", "B", "C"] ["A", "B", "C"]
    wStocksRes (by decide) (by decide)
  exact ⟨h.2.1, h.2.2 5⟩

/-- Every scored row's stored score is recomputable from its stripped
`(symbol, name)` pair. -/
theorem scoredResults_score (query : String) :
    ∀ r ∈ scoredResults query, r.2.2 = scoreOf query (r.1, r.2.1) := by
  intro r hr
  simp only [scoredResults] at hr
  obtain ⟨p, hp, hf⟩ := List.mem_filterMap.mp hr
  split at hf
  · rw [Option.some.injEq] at hf
    subst hf
    rfl
  · exact absurd hf (by simp)

/-- The search output is capped at 20 entries. -/
theorem search_results_le20 (query : String) :
    (search_stocks query).search_results.length ≤ 20 := by
  simp only [search_stocks, List.length_map]
  exact List.length_take_le _ _

/-- The search output is sorted descending by the (recomputed) score. -/
theorem search_results_sorted (query : String) :
    List.Sorted (fun a b => scoreOf query b ≤ scoreOf query a)
      (search_stocks query).search_results := by
  have hsorted : List.Sorted scoreRel ((scoredResults query).insertionSort scoreRel) :=
    List.sorted_insertionSort scoreRel _
  have htake : List.Sorted scoreRel
      (((scoredResults query).insertionSort scoreRel).take 20) :=
    List.Pairwise.sublist (List.take_sublist _ _) hsorted
  have hmem : ∀ r ∈ ((scoredResults query).insertionSort scoreRel).take 20,
      r ∈ scoredResults query := by
    intro r hr
    exact (List.perm_insertionSort scoreRel _).mem_iff.mp
      ((List.take_sublist _ _).subset hr)
  have hpw : List.Pairwise
      (fun a b : ScoredRow => scoreOf query (b.1, b.2.1) ≤ scoreOf query (a.1, a.2.1))
      (((scoredResults query).insertionSort scoreRel).take 20) := by
    refine List.Pairwise.imp_of_mem ?_ htake
    intro a b ha hb hab
    rw [← scoredResults_score query a (hmem a ha), ← scoredResults_score query b (hmem b hb)]
    exact hab
  simp only [search_stocks]
  rw [List.Sorted, List.pairwise_map]
  exact hpw

/-- Claim C7, counterexample.  The claim reads the scoring rule as an
additive sum in which a word of the name scores 20 for containing the
query **and** 15 for starting with it (and takes the symbol/name rules
as independent additive contributions).  The code's `elif` chains make
each group exclusive, and since `startswith ⊆ contains`, the 15-point
branch can never fire.  At query `"apple"` against
`("AAPL", "Apple Inc.")`: the code scores 30 (name substring) + 20
(word contains) = 50, while the claim's additive reading gives
30 + 20 + 15 = 65. -/
theorem search_score_additive_counterexample :
    calculate_match_score ("apple".toList) ("AAPL".toList) ("Apple Inc.".toList) = 50 ∧
    claimed_match_score ("apple".toList) ("AAPL".toList) ("Apple Inc.".toList) = 65 ∧
    (50 : Nat) ≠ 65 := by
  exact ⟨by decide, by decide, by decide⟩

/-- Claim C7, amended.  The score is: 100 if the query equals the symbol,
**else** 50 if it is a substring; plus 90 if it equals the name, **else**
30 if it is a substring; plus 20 per word of the name containing the
query — the 15-point starts-with branch is unreachable because starting
with the query implies containing it.  `search_stocks` returns the
matches sorted descending by this score (recomputable from the stripped
output) and truncated to at most 20 entries. -/
theorem search_scoring_amended :
    (∀ q s n : PyStr,
      calculate_match_score q s n =
        (if q = pyLower s then 100 else if isSubstr q (pyLower s) then 50 else 0) +
        (if q = pyLower n then 90 else if isSubstr q (pyLower n) then 30 else 0) +
        20 * (pySplit (pyLower n)).countP (fun w => isSubstr q w)) ∧
    (∀ query : String,
      (search_stocks query).search_results.length ≤ 20 ∧
      List.Sorted (fun a b => scoreOf query b ≤ scoreOf query a)
        (search_stocks query).search_results) := by
  constructor
  · intro q s n
    unfold calculate_match_score
    rw [word_score_foldl]
    simp
  · intro query
    exact ⟨search_results_le20 query, search_results_sorted query⟩

/-- Claim C8. Holdings enrichment is a left join: when both batch calls
succeed, every input holding row appears in the merged output exactly
once and in order (the output's row projection *is* the input list), and
a row whose derived quote key matches no batch price result — or no
batch info result — gets `none` (the code's `{}`) for that field instead
of being dropped or failing. -/
theorem holdings_enrichment_left_join
    (fetch : String → FetchOutcome) (fetchInfo : String → Except String InfoDict)
    (elapsed : String → Nat) (timeout : Nat) (cache : Cache CompanyInfoSchema)
    (now ttl : Int) (rows : List HoldingRow) (enriched : List EnrichedRow)
    (spm : MultipleStocksResult) (cir : MultipleInfoResponse)
    (c2 : Cache CompanyInfoSchema)
    (hs : get_multiple_stocks fetch (rows.map quoteOf) = .ok spm)
    (hi : get_multiple_company_info fetchInfo elapsed timeout cache now ttl
        (rows.map quoteOf) = .ok (cir, c2))
    (he : get_enriched_holdings fetch fetchInfo elapsed timeout cache now ttl rows
        = .ok enriched) :
    enriched.map EnrichedRow.row = rows ∧
    ∀ e ∈ enriched,
      ((∀ s ∈ spm.trending_stocks, ¬ s.symbol = e.quote) → e.price = none) ∧
      ((∀ p ∈ cir.stocks, ¬ p.1 = e.quote) → e.info = none) := by
  simp only [get_enriched_holdings, hs, hi] at he
  rw [Except.ok.injEq] at he
  subst he
  constructor
  · rw [List.map_map]
    have hid : (EnrichedRow.row ∘ fun r =>
        ({ row := r, quote := quoteOf r,
           price := spm.trending_stocks.find? (fun s => s.symbol == quoteOf r),
           info := lookupLast cir.stocks (quoteOf r) } : EnrichedRow)) = id := rfl
    rw [hid, List.map_id]
  · intro e he
    obtain ⟨r, hr, rfl⟩ := List.mem_map.mp he
    constructor
    · intro hnone
      simp only
      rw [List.find?_eq_none]
      intro s hsmem
      have := hnone s hsmem
      simpa using this
    · intro hnone
      simp only [lookupLast]
      rw [Option.map_eq_none', List.find?_eq_none]
      intro p hpmem
      have := hnone p (List.mem_reverse.mp hpmem)
      simpa using this

/-- Witness for C8: a single NSE row whose broker-stored symbol is
lowercase.  The price fetch fails (empty trending list) and the batch
info is keyed by the uppercased symbol `ABC.NS ≠ abc.NS`, so the row
still appears in the output, with `none` for both price and info. -/
theorem holdings_enrichment_left_join_witness :
    [wEnriched].map EnrichedRow.row = [wRow] ∧
    wEnriched.price = none ∧ wEnriched.info = none := by
  have h := holdings_enrichment_left_join wFetch (fun _ => .ok {}) (fun _ => 0) 30
    [] 0 300 [wRow] [wEnriched] wSpm wCir wCache (by decide) (by decide) (by decide)
  have h2 := h.2 wEnriched (by decide)
  exact ⟨h.1, h2.1 (by decide), h2.2 (by decide)⟩

end YF
